import Mathlib

/-
Verification of mixed_load.cpp: a synthetic CPU/memory load generator.
The per-thread routine x86_task runs an infinite loop of three phases
(integer arithmetic on a 32-bit unsigned accumulator, floating-point
arithmetic, and an in-place memory read/write pass), and main spawns
one thread per requested count.

Modelling conventions:
- 32-bit unsigned arithmetic is modelled on Nat with explicit % 2^32.
- The single-precision floating-point phase is modelled in exact rational
  arithmetic; the properties proved about it (the step overwrites the
  accumulator and its raw result is the constant 11249/3800, far below
  the 100.0 threshold) are robust to float rounding, since the computed
  float value is within 1e-5 of the rational one.
- The memory buffer is a function from indices to integers; the array
  size is kept as a parameter M where the spec quantifies over sizes.
- std::stoi semantics (skip whitespace, optional sign, maximal digit run,
  failure when no digit is found or the value does not fit in int) are
  embedded directly, with an uncaught exception modelled as the absent
  outcome (abnormal termination before any thread is launched).
-/

namespace MixedLoad

/-- Modulus of 32-bit unsigned arithmetic (unsigned int in the source). -/
def U32 : ℕ := 2 ^ 32

/-- Integer seed constant a = 1 from x86_task. -/
def a : ℕ := 1

/-- Integer seed constant b = 2 from x86_task. -/
def b : ℕ := 2

/-- Integer seed constant c = 3 from x86_task. -/
def c : ℕ := 3

/-- Integer seed constant d = 4 from x86_task. -/
def d : ℕ := 4

/-- The bit-shift line of the integer phase:
result = (result << 3) | (result >> 29), on a 32-bit unsigned value. -/
def rot (r : ℕ) : ℕ := ((r <<< 3) % U32) ||| (r >>> 29)

/-- A mathematical circular rotate-left-by-3 on a 32-bit word, written from
the spec words "a circular rotate on a 32-bit word" for comparison with rot. -/
def rotLeft3_32 (r : ℕ) : ℕ := (r % 2 ^ 29) * 2 ^ 3 + r / 2 ^ 29

/-- One step of the integer phase before the zero check: result += a*b;
result -= c (with 32-bit wraparound); result ^= d; then the rotate line.
Faithful to the source for accumulator values below 2^32. -/
def intStepRaw (r : ℕ) : ℕ :=
  rot ((((r + a * b) % U32 + (U32 - c)) % U32) ^^^ d)

/-- One full step of the integer phase including the reset:
if the accumulator is exactly 0 after the operations it becomes a+b+c+d. -/
def intStep (r : ℕ) : ℕ :=
  if intStepRaw r = 0 then a + b + c + d else intStepRaw r

/-- The integer phase of one round: 1000000 steps. -/
def intPhase (r : ℕ) : ℕ := intStep^[1000000] r

/-- Float seed constant x = 1.23f, as an exact rational. -/
def x : ℚ := 123 / 100

/-- Float seed constant y = 4.56f, as an exact rational. -/
def y : ℚ := 456 / 100

/-- Float seed constant z = 7.89f, as an exact rational. -/
def z : ℚ := 789 / 100

/-- One step of the floating-point phase before the threshold check:
f_result = x * y; f_result += z; f_result /= y. The parameter is the
prior accumulator value, which the source overwrites without reading. -/
def floatStepRaw (f : ℚ) : ℚ := (x * y + z) / y

/-- One full step of the floating-point phase including the reset:
if the value exceeds 100.0 it becomes x + y + z. -/
def floatStep (f : ℚ) : ℚ :=
  if floatStepRaw f > 100 then x + y + z else floatStepRaw f

/-- The floating-point phase of one round: 1000000 steps. -/
def floatPhase (f : ℚ) : ℚ := floatStep^[1000000] f

/-- ARRAY_SIZE = 1024 * 1024 from x86_task. -/
def ARRAY_SIZE : ℕ := 1024 * 1024

/-- The write pass: array[i] = i * 2 for every index below M; other
indices keep their previous contents (they are never read back). -/
def writePass (M : ℕ) (buf : ℕ → ℤ) : ℕ → ℤ :=
  fun i => if i < M then 2 * (i : ℤ) else buf i

/-- One step of the read-accumulate pass at index i:
array[i] += array[(i + 1) % M], updating the buffer in place. -/
def raStep (M : ℕ) (buf : ℕ → ℤ) (i : ℕ) : ℕ → ℤ :=
  fun j => if j = i then buf i + buf ((i + 1) % M) else buf j

/-- The buffer after the first k steps of the read-accumulate pass,
performed in increasing index order. -/
def raAfter (M k : ℕ) (buf : ℕ → ℤ) : ℕ → ℤ :=
  (List.range k).foldl (raStep M) buf

/-- The full read-accumulate pass over indices 0 .. M-1 in increasing order. -/
def raPass (M : ℕ) (buf : ℕ → ℤ) : ℕ → ℤ := raAfter M M buf

/-- The memory phase of one round: the write pass then the read-accumulate
pass over a buffer of size M. -/
def memPhase (M : ℕ) (buf : ℕ → ℤ) : ℕ → ℤ := raPass M (writePass M buf)

/-- The buffer contents after one memory phase starting from any prior
contents (the write pass overwrites every index that is later read). -/
def memFinal (M : ℕ) : ℕ → ℤ := memPhase M (fun _ => 0)

/-- The thread-local state of one Load Unit: the integer accumulator,
the floating-point accumulator, and the memory buffer. -/
structure TaskState where
  result : ℕ
  f_result : ℚ
  array : ℕ → ℤ

/-- One round of the x86_task loop body: the integer phase, the
floating-point phase, the memory phase over the fixed ARRAY_SIZE buffer,
and the 10 ms sleep (which does not change the state). -/
def roundStep (s : TaskState) : TaskState :=
  { result := intPhase s.result
    f_result := floatPhase s.f_result
    array := memPhase ARRAY_SIZE s.array }

/-- The loop guard of x86_task, literally the condition while (true). -/
def loopGuard (s : TaskState) : Bool := true

/-- Control state of one Load Unit: still inside the while loop with a
given task state, or past it (the routine has returned). -/
inductive TaskControl where
  | running (s : TaskState)
  | returned

/-- One transition of the x86_task control flow: test the loop guard;
when it holds run one round and loop, otherwise fall out of the loop. -/
def taskStep : TaskControl → TaskControl
  | .running s => if loopGuard s then .running (roundStep s) else .returned
  | .returned => .returned

/-- Whitespace characters recognised by the whitespace skip of std::stoi
(C locale isspace). -/
def isSpaceC (ch : Char) : Bool :=
  ch = ' ' || ch = '\t' || ch = '\n' || ch = '\x0b' || ch = '\x0c' || ch = '\r'

/-- Numeric value of a run of decimal digit characters. -/
def digitsVal (l : List Char) : ℕ :=
  l.foldl (fun acc ch => 10 * acc + (ch.toNat - 48)) 0

/-- Sign handling of std::stoi: an optional leading plus or minus. -/
def stoiSign : List Char → ℤ × List Char
  | [] => (1, [])
  | ch :: rest =>
      if ch = '+' then (1, rest)
      else if ch = '-' then (-1, rest) else (1, ch :: rest)

/-- The conversion performed by std::stoi before the range check: skip
whitespace, read an optional sign, then a maximal run of decimal digits;
no digit at all means failure (std::invalid_argument). Characters after
the digit run are ignored. -/
def stoiParse (s : List Char) : Option ℤ :=
  let s1 := s.dropWhile isSpaceC
  let p := stoiSign s1
  let ds := p.2.takeWhile (fun ch => ch.isDigit)
  if ds.isEmpty then none else some (p.1 * (digitsVal ds : ℤ))

/-- Largest value of a 32-bit int. -/
def INT_MAX : ℤ := 2 ^ 31 - 1

/-- Smallest value of a 32-bit int. -/
def INT_MIN : ℤ := -(2 ^ 31)

/-- std::stoi on a string: the parsed value when one exists and fits in
int; none models a thrown exception (std::invalid_argument or
std::out_of_range), which main does not catch. -/
def stoi (s : List Char) : Option ℤ :=
  match stoiParse s with
  | none => none
  | some v => if INT_MIN ≤ v ∧ v ≤ INT_MAX then some v else none

/-- Observable outcome of a startup that launched its threads: how many
Load Units were created, and the normal exit code of main, where none
means main blocks forever in join and never returns. -/
structure MainResult where
  launched : ℕ
  exitCode : Option ℕ
deriving DecidableEq

/-- The harness main: num_threads is the hardware concurrency hw, or
stoi(argv[1]) when an argument is given; the spawn loop runs num_threads
times (zero times when num_threads <= 0); main returns 0 after joining
only when no thread was launched, and otherwise blocks forever. The
absent result models an uncaught stoi exception: abnormal termination
with a non-zero status before any thread is launched. -/
def mainModel (hw : ℕ) (arg : Option (List Char)) : Option MainResult :=
  let n : Option ℤ := match arg with
    | none => some (hw : ℤ)
    | some s => stoi s
  match n with
  | none => none
  | some v =>
      let k := v.toNat
      some { launched := k, exitCode := if k = 0 then some 0 else none }

section Helpers

theorem raAfter_zero (M : ℕ) (buf : ℕ → ℤ) : raAfter M 0 buf = buf := rfl

theorem raAfter_succ (M k : ℕ) (buf : ℕ → ℤ) :
    raAfter M (k + 1) buf = raStep M (raAfter M k buf) k := by
  unfold raAfter
  rw [List.range_succ, List.foldl_append]
  rfl

/-- The in-place pass after its first k steps, k before the last index:
positions below k hold the old value plus the old right neighbour, and
positions from k on are untouched. -/
theorem raAfter_spec (M : ℕ) (buf : ℕ → ℤ) :
    ∀ k, k < M → ∀ j, raAfter M k buf j =
      if j < k then buf j + buf (j + 1) else buf j := by
  intro k
  induction k with
  | zero => intro _ j; simp [raAfter_zero]
  | succ k ih =>
      intro hk j
      have hkM : k < M := Nat.lt_of_succ_lt hk
      rw [raAfter_succ]
      unfold raStep
      rw [Nat.mod_eq_of_lt hk]
      by_cases hj : j = k
      · subst hj
        simp only [if_pos rfl]
        rw [ih hkM j, ih hkM (j + 1)]
        simp
      · simp only [if_neg hj]
        rw [ih hkM j]
        rcases Nat.lt_trichotomy j k with hlt | heq | hgt
        · rw [if_pos hlt, if_pos (Nat.lt_succ_of_lt hlt)]
        · exact absurd heq hj
        · rw [if_neg (Nat.not_lt.mpr hgt), if_neg (by omega)]

/-- The full pass for M at least 2: every index but the last gets its old
right neighbour added; the last index gets the already-updated element 0,
which is old element 0 plus old element 1. -/
theorem raPass_spec (M : ℕ) (hM : 2 ≤ M) (buf : ℕ → ℤ) (j : ℕ) :
    raPass M buf j =
      if j < M - 1 then buf j + buf (j + 1)
      else if j = M - 1 then buf (M - 1) + (buf 0 + buf 1) else buf j := by
  have hM1 : M - 1 < M := by omega
  have e1 : raPass M buf = raStep M (raAfter M (M - 1) buf) (M - 1) := by
    calc raPass M buf = raAfter M ((M - 1) + 1) buf := by
          exact congrArg (fun t => raAfter M t buf) (by omega)
      _ = raStep M (raAfter M (M - 1) buf) (M - 1) := raAfter_succ M (M - 1) buf
  rw [e1]
  unfold raStep
  have hmod : (M - 1 + 1) % M = 0 := by
    rw [show M - 1 + 1 = M by omega]; exact Nat.mod_self M
  rw [hmod]
  rw [raAfter_spec M buf _ hM1 (M - 1), raAfter_spec M buf _ hM1 0,
    raAfter_spec M buf _ hM1 j]
  have h0 : 0 < M - 1 := by omega
  by_cases hj : j = M - 1
  · subst hj
    simp [lt_irrefl, h0]
  · by_cases hlt : j < M - 1
    · simp [hj, hlt]
    · simp [hj, hlt]

theorem raPass_one (buf : ℕ → ℤ) : raPass 1 buf 0 = buf 0 + buf 0 := rfl

/-- Final buffer contents after one memory phase, for every size M >= 1:
each index but the last holds 2i + 2(i+1); the last holds
2(M-1) + 2(1 % M), which is 0 for M = 1 and 2(M-1) + 2 otherwise. -/
theorem memFinal_spec (M : ℕ) (hM : 1 ≤ M) (i : ℕ) (hi : i < M) :
    memFinal M i =
      if i + 1 < M then 2 * i + 2 * (i + 1) else 2 * i + 2 * (1 % M) := by
  unfold memFinal memPhase
  rcases Nat.lt_or_ge M 2 with hM1 | hM2
  · have hMe : M = 1 := by omega
    subst hMe
    have hie : i = 0 := by omega
    subst hie
    rw [raPass_one]
    norm_num [writePass]
  · rw [raPass_spec M hM2 _ i]
    have h1M : (1 : ℕ) % M = 1 := Nat.mod_eq_of_lt (by omega)
    by_cases hlt : i < M - 1
    · rw [if_pos hlt, if_pos (by omega)]
      unfold writePass
      rw [if_pos hi, if_pos (by omega)]
      push_cast
      ring
    · have hie : i = M - 1 := by omega
      rw [if_neg hlt, if_pos hie, if_neg (by omega)]
      subst hie
      unfold writePass
      rw [if_pos hi, if_pos (by omega), if_pos (by omega), h1M]
      push_cast
      ring

/-- After any number of transitions the Load Unit control state is still
inside the loop: while (true) re-enters the loop after every round. -/
theorem taskStep_stays_running (n : ℕ) : ∀ s : TaskState,
    ∃ t : TaskState, taskStep^[n] (TaskControl.running s) = TaskControl.running t := by
  induction n with
  | zero => intro s; exact ⟨s, rfl⟩
  | succ n ih =>
      intro s
      rw [Function.iterate_succ_apply]
      exact ih (roundStep s)

end Helpers

/-- C1 counterexample: the claimed round-trip formula
buffer[i] = i*2 + ((i+1) % M)*2 fails at M = 2, i = 1: the read-accumulate
pass runs in place in increasing index order, so the last element adds the
already-updated element 0 and ends as 4, not 2. -/
theorem C1_counterexample :
    memFinal 2 1 = 4 ∧ memFinal 2 1 ≠ 1 * 2 + ((1 + 1) % 2) * 2 := by
  constructor
  · decide
  · decide

/-- C1 amended: after the write pass and one in-place read-accumulate pass
over a buffer of size M >= 1, element i holds 2i + 2(i+1) for i below the
last index, while the last element holds 2(M-1) + 2(1 % M) (the modular
formula of the claim holds at every index except the last; the last adds
the already-updated element 0 instead of the original one). -/
theorem C1_theorem (M : ℕ) (hM : 1 ≤ M) (i : ℕ) (hi : i < M) :
    memFinal M i =
      if i + 1 < M then 2 * i + 2 * (i + 1) else 2 * i + 2 * (1 % M) :=
  memFinal_spec M hM i hi

/-- C1 witness: the amended formula evaluated at M = 3, i = 2. -/
theorem C1_theorem_witness : memFinal 3 2 = 6 := by
  have h := C1_theorem 3 (by decide) 2 (by decide)
  norm_num at h
  exact h

/-- C2 counterexample: the argument 5abc has trailing non-digit characters,
yet std::stoi parses the leading 5 and the harness launches 5 Load Units
instead of exiting non-zero without launching any. -/
theorem C2_counterexample :
    mainModel 4 (some ['5', 'a', 'b', 'c']) = some ⟨5, none⟩ ∧ (5 : ℕ) ≠ 0 := by
  constructor
  · decide
  · decide

/-- C2 amended: if stoi finds a leading integer v > 0 in the argument
(trailing characters ignored), the harness launches exactly v Load Units
and blocks forever; if stoi fails (no leading digit after optional
whitespace and sign, or value out of int range), the process terminates
abnormally before launching any unit. -/
theorem C2_theorem (hw : ℕ) (s : List Char) :
    (∀ v : ℤ, stoi s = some v → 0 < v →
      mainModel hw (some s) = some ⟨v.toNat, none⟩) ∧
    (stoi s = none → mainModel hw (some s) = none) := by
  constructor
  · intro v hs hv
    simp [mainModel, hs]
    omega
  · intro hs
    simp [mainModel, hs]

/-- C2 witness: the amended claim evaluated on the numeric argument 3 and
the non-numeric argument a. -/
theorem C2_theorem_witness :
    mainModel 4 (some ['3']) = some ⟨Int.toNat 3, none⟩ ∧
    mainModel 4 (some ['a']) = none :=
  ⟨(C2_theorem 4 [ '3' ]).1 3 (by decide) (by decide),
   (C2_theorem 4 [ 'a' ]).2 (by decide)⟩

/-- C3 code evaluation: on the argument 0 (and likewise -2) the harness
launches zero Load Units and main returns 0, so exit code 0 is produced on
a run that launched no Load Units, contradicting the claim and the spec. -/
theorem C3_code_behaviour :
    mainModel 4 (some ['0']) = some ⟨0, some 0⟩ ∧
    mainModel 4 (some ['-', '2']) = some ⟨0, some 0⟩ := by
  constructor
  · decide
  · decide

/-- C4 counterexample: when the host reports 0 logical processors and no
argument is given, the harness launches 0 Load Units and exits 0, not the
claimed fallback of at least one unit. -/
theorem C4_counterexample : mainModel 0 none = some ⟨0, some 0⟩ := by decide

/-- C4 amended: with no argument the number of launched Load Units equals
the host-reported logical processor count exactly, including launching
zero units (and then exiting 0) when the host reports 0; the harness never
crashes on this path. -/
theorem C4_theorem (hw : ℕ) :
    mainModel hw none = some ⟨hw, if hw = 0 then some 0 else none⟩ := by
  simp [mainModel]

/-- C5 counterexample: the float step started from the reset value 13.68
produces exactly the same value as the float step started from 0, so the
reset value is not a value the following step's computation operates on. -/
theorem C5_counterexample :
    floatStep (1368 / 100) = floatStep 0 ∧ (1368 / 100 : ℚ) ≠ 0 := by
  constructor
  · rfl
  · norm_num

/-- C5 amended: the reset branch assigns x + y + z = 13.68, and that is the
accumulator's value when the next step begins; but every step overwrites
the accumulator with x * y before reading it, so its result is the
constant 11249/3800 (about 2.96) regardless of the starting value, the
end-of-step value never exceeds 100.0, and the reset value never feeds any
later computation. -/
theorem C5_theorem (f : ℚ) :
    floatStep f = 11249 / 3800 ∧ floatStepRaw f ≤ 100 ∧
    x + y + z = 1368 / 100 ∧ floatStep (x + y + z) = floatStep f := by
  have hraw : floatStepRaw f = 11249 / 3800 := by
    norm_num [floatStepRaw, x, y, z]
  have hle : floatStepRaw f ≤ 100 := by rw [hraw]; norm_num
  have hstep : floatStep f = 11249 / 3800 := by
    unfold floatStep
    rw [if_neg (by rw [hraw]; norm_num)]
    exact hraw
  exact ⟨hstep, hle, by norm_num [x, y, z], rfl⟩

/-- C6: the rotate line (result << 3) | (result >> 29) under 32-bit
wraparound semantics is a circular rotate-left-by-3 on a 32-bit word, for
every accumulator value below 2^32; the result stays below 2^32. -/
theorem C6_theorem (r : ℕ) (h : r < U32) :
    rot r = rotLeft3_32 r ∧ rot r < U32 := by
  have hq : r / 2 ^ 29 < 2 ^ 3 := by
    apply (Nat.div_lt_iff_lt_mul (by norm_num)).mpr
    calc r < U32 := h
    _ = 2 ^ 3 * 2 ^ 29 := by norm_num [U32]
  have hrem : r % 2 ^ 29 < 2 ^ 29 := Nat.mod_lt _ (by norm_num)
  have hsmall : r % 2 ^ 29 * 2 ^ 3 < 2 ^ 32 := by
    have h1 : r % 2 ^ 29 * 2 ^ 3 < 2 ^ 29 * 2 ^ 3 := by
      exact Nat.mul_lt_mul_of_lt_of_le hrem (le_refl _) (by norm_num)
    omega
  have hmod : r * 2 ^ 3 % 2 ^ 32 = r % 2 ^ 29 * 2 ^ 3 := by
    conv_lhs => rw [← Nat.div_add_mod r (2 ^ 29)]
    have hexp : (2 ^ 29 * (r / 2 ^ 29) + r % 2 ^ 29) * 2 ^ 3
        = 2 ^ 32 * (r / 2 ^ 29) + r % 2 ^ 29 * 2 ^ 3 := by ring
    rw [hexp, Nat.mul_add_mod]
    exact Nat.mod_eq_of_lt hsmall
  have hor := Nat.mul_add_lt_is_or hq (r % 2 ^ 29)
  have heq : rot r = rotLeft3_32 r := by
    unfold rot rotLeft3_32 U32
    rw [Nat.shiftLeft_eq, Nat.shiftRight_eq_div_pow, hmod]
    calc r % 2 ^ 29 * 2 ^ 3 ||| r / 2 ^ 29
        = 2 ^ 3 * (r % 2 ^ 29) ||| r / 2 ^ 29 := by rw [Nat.mul_comm]
      _ = 2 ^ 3 * (r % 2 ^ 29) + r / 2 ^ 29 := hor.symm
      _ = r % 2 ^ 29 * 2 ^ 3 + r / 2 ^ 29 := by ring
  refine ⟨heq, ?_⟩
  rw [heq]
  unfold rotLeft3_32 U32
  omega

/-- C6 witness: the rotate evaluated at the concrete value 2^31 + 5. -/
theorem C6_theorem_witness :
    rot 2147483653 = rotLeft3_32 2147483653 ∧ rot 2147483653 < U32 :=
  C6_theorem 2147483653 (by decide)

/-- C7: after the multiply-accumulate, subtract, XOR and rotate of one
integer step, an accumulator of exactly 0 is replaced by a + b + c + d,
which is 10; any non-zero value is carried into the next step unchanged. -/
theorem C7_theorem (r : ℕ) :
    (intStepRaw r = 0 → intStep r = a + b + c + d) ∧ a + b + c + d = 10 ∧
    (intStepRaw r ≠ 0 → intStep r = intStepRaw r) := by
  refine ⟨fun h0 => ?_, rfl, fun hne => ?_⟩
  · simp [intStep, h0]
  · simp [intStep, hne]

/-- C7 witness: the step at r = 5, where the operations give exactly 0 and
the reset to 10 fires, and at r = 0, where they do not give 0. -/
theorem C7_theorem_witness : intStep 5 = 10 ∧ intStep 0 = intStepRaw 0 :=
  ⟨(C7_theorem 5).1 (by decide), (C7_theorem 0).2.2 (by decide)⟩

/-- C8: the Load Unit never returns: the while (true) loop re-enters a
round after every round, and after any number of transitions the control
state is never the returned state. -/
theorem C8_theorem (s : TaskState) (n : ℕ) :
    taskStep (TaskControl.running s) = TaskControl.running (roundStep s) ∧
    taskStep^[n] (TaskControl.running s) ≠ TaskControl.returned := by
  refine ⟨rfl, ?_⟩
  obtain ⟨t, ht⟩ := taskStep_stays_running n s
  rw [ht]
  intro hcontra
  exact TaskControl.noConfusion hcontra

/-- C9: each floating-point step overwrites the accumulator with x * y
before reading it, so the step result is identical for any two prior
accumulator values; in particular a reset value is discarded. -/
theorem C9_theorem (u v : ℚ) :
    floatStep u = floatStep v ∧ floatStepRaw u = floatStepRaw v :=
  ⟨rfl, rfl⟩

/-- C10: actual in-place memory-phase result: for M >= 2 every index below
M - 1 ends as 2i + 2(i+1), the last index ends as 2(M-1) + (0*2 + 1*2)
because it reads the already-updated element 0, and for M = 1 the single
element ends as 0. -/
theorem C10_theorem (M : ℕ) (hM : 2 ≤ M) :
    (∀ i, i < M - 1 → memFinal M i = 2 * i + 2 * (i + 1)) ∧
    memFinal M (M - 1) = 2 * (M - 1) + (0 * 2 + 1 * 2) ∧
    memFinal 1 0 = 0 := by
  refine ⟨fun i hi => ?_, ?_, by decide⟩
  · rw [memFinal_spec M (by omega) i (by omega), if_pos (by omega)]
    push_cast
    omega
  · rw [memFinal_spec M (by omega) (M - 1) (by omega), if_neg (by omega)]
    have h1M : (1 : ℕ) % M = 1 := Nat.mod_eq_of_lt (by omega)
    rw [h1M]
    push_cast
    omega

/-- C10 witness: the characterisation evaluated at M = 2. -/
theorem C10_theorem_witness :
    memFinal 2 0 = 2 ∧ memFinal 2 1 = 4 ∧ memFinal 1 0 = 0 := by
  have h := C10_theorem 2 (by decide)
  refine ⟨?_, ?_, h.2.2⟩
  · have h0 := h.1 0 (by decide)
    norm_num at h0
    exact h0
  · have h1 := h.2.1
    norm_num at h1
    exact h1

end MixedLoad
